import Mathlib

/-!
Verification of the orchestration logic of `src/app.py`
(repository convert-large-pdf-to-text).

The program splits a PDF into page-range chunks (`split_pdf`), extracts the
text of each chunk in a thread pool (`process_chunk`), collects results in
completion order into the module-level list `text_chunks`
(`process_large_pdf`), writes the joined text when the run was not
interrupted, and finally sweeps the temporary directory for `*.pdf` files
(the `__main__` block).

The shallow embedding below models pages as natural-number indices, chunk
artifacts as the list of the page indices they contain, the external
extraction routine and `os.unlink` as oracle parameters of type `Except`
(an `Except.error` is a raised exception), the monotonic process-wide
`shutdown_flag` as a boolean oracle sampled at the checkpoints where the
source reads it, and the nondeterministic `as_completed` completion order
as an explicit list of completion events.
-/

namespace ConvertLargePdf

/-- The page indices of the chunk starting at page `i`: the loop
`for j in range(i, min(i + chunk_size, total_pages))` of `split_pdf`
(src/app.py lines 34-35) adds exactly the pages
`i, i+1, ..., min(i + chunk_size, total_pages) - 1`, in document order. -/
def chunkPages (total_pages i chunk_size : Nat) : List Nat :=
  List.range' i (min (i + chunk_size) total_pages - i)

/-- The loop of `split_pdf` (src/app.py lines 30-42) from page index `i`
onwards: `for i in range(0, total_pages, chunk_size)` checks
`shutdown_flag.is_set()` at the top of each iteration and breaks if set,
otherwise materializes the chunk starting at page `i` and continues at
`i + chunk_size`.  `shutdownAt i` is the value of the monotonic flag
observed at the checkpoint of the iteration starting at page `i`.  The
first argument is structural-recursion fuel: since every iteration advances
`i` by `chunk_size ≥ 1` while the loop runs only as long as
`i < total_pages`, `total_pages` units of fuel always suffice (see
`split_pdf`); Python's `range` raises on a zero step, so all theorems
assume `1 ≤ chunk_size`. -/
def splitFrom (total_pages chunk_size : Nat) (shutdownAt : Nat → Bool) :
    Nat → Nat → List (List Nat)
  | 0, _ => []
  | fuel + 1, i =>
    if i < total_pages then
      if shutdownAt i then []
      else chunkPages total_pages i chunk_size ::
        splitFrom total_pages chunk_size shutdownAt fuel (i + chunk_size)
    else []

/-- `split_pdf` (src/app.py lines 25-42): the full sequence of chunk
artifacts the generator yields, starting at page 0. -/
def split_pdf (total_pages chunk_size : Nat) (shutdownAt : Nat → Bool) : List (List Nat) :=
  splitFrom total_pages chunk_size shutdownAt total_pages 0

/-- Everything observable about one `process_chunk` invocation: the value it
returns (`none` models Python's `None`), whether `extract_text` was invoked,
and whether the chunk's temporary file was deleted by the time it returned.
`process_chunk` never raises: every exception path of the source is caught,
which the total return type records. -/
structure ChunkOutcome where
  result : Option String
  extractionInvoked : Bool
  deleted : Bool
  deriving DecidableEq, Repr

/-- `process_chunk` (src/app.py lines 46-63).  `shutdown_flag` is the flag
value at the entry checkpoint (line 47); `extract_text` is the outcome of the
external extraction call (line 51), `Except.error` modelling a raised
exception caught by the `except` clause (lines 55-57); `unlink` is the
outcome of `os.unlink` in the `finally` block (lines 58-63), whose failure is
caught and only logged.  Note the entry checkpoint `return None` (line 48)
sits before the `try`, so the `finally` does not run on that path. -/
def process_chunk (shutdown_flag : Bool) (extract_text : Except String String)
    (unlink : Except String Unit) : ChunkOutcome :=
  if shutdown_flag then
    ⟨none, false, false⟩
  else
    ⟨(match extract_text with
      | Except.ok text => some text
      | Except.error _ => none),
     true,
     (match unlink with
      | Except.ok _ => true
      | Except.error _ => false)⟩

/-- Terminal state of `process_large_pdf`: `aggregated` when the
`as_completed` loop ran to the end, `interrupted` when the shutdown branch
(src/app.py lines 84-87) broke out of it. -/
inductive RunState where
  | aggregated
  | interrupted
  deriving DecidableEq, Repr

/-- The `as_completed` collection loop of `process_large_pdf`
(src/app.py lines 75-87).  `text_chunks` is the module-level list the loop
appends to; each completion event carries the completed future's value and
the `shutdown_flag` value observed at the check *after* the append
(line 84).  Returns the final list and whether the loop broke out early. -/
def collectLoop (text_chunks : List String) :
    List (Option String × Bool) → List String × Bool
  | [] => (text_chunks, false)
  | (chunk_text, shut) :: rest =>
    let acc := match chunk_text with
      | some text => text_chunks ++ [text]
      | none => text_chunks
    if shut then (acc, true) else collectLoop acc rest

/-- The texts the collection loop appends for a given completion sequence
(specification-side restatement of `collectLoop`, proved equivalent in
`collectLoop_fst`). -/
def collected : List (Option String × Bool) → List String
  | [] => []
  | (chunk_text, shut) :: rest =>
    let here := match chunk_text with
      | some text => [text]
      | none => []
    if shut then here else here ++ collected rest

/-- `process_large_pdf` (src/app.py lines 65-95), from the point the worker
results come back: runs the collection loop over the completion events,
then returns `full_text = "".join(text_chunks)` (line 90) together with the
final module-level `text_chunks` list and the terminal state.  The initial
`text_chunks` is a parameter because the source list (line 44) is
module-level state that the function never resets. -/
def process_large_pdf (text_chunks : List String)
    (completions : List (Option String × Bool)) : String × List String × RunState :=
  let r := collectLoop text_chunks completions
  (String.join r.1, r.1, if r.2 then RunState.interrupted else RunState.aggregated)

/-- The output decision of the `__main__` block (src/app.py lines 102-112):
`fatal` is true when `process_large_pdf` raised (the `except` arm, line 113);
`shutdown_at_end` is the flag value at the `if not shutdown_flag.is_set()`
check (line 105).  First component: the content written to the destination
file (`none` = no file written); second component: the string
`process_large_pdf` returned. -/
def main_output (text_chunks : List String) (completions : List (Option String × Bool))
    (fatal : Bool) (shutdown_at_end : Bool) : Option String × String :=
  let extracted_text := (process_large_pdf text_chunks completions).1
  (if fatal then none else if shutdown_at_end then none else some extracted_text,
   extracted_text)

/-- Python's `str.endswith`: the second string is a suffix of the first,
decided over the character sequences. -/
def endswith (file suf : String) : Bool :=
  List.isSuffixOf suf.data file.data

/-- The cleanup sweep of the `finally` block (src/app.py lines 115-122):
walks every file of the temporary directory, deletes the ones whose name
ends with `.pdf`, catching (and only logging) each deletion failure.
`files` is the directory listing, `unlinkOk file` whether deleting `file`
succeeds; the result is the directory content after the sweep.  The sweep
raises nothing: each `os.unlink` sits in its own `try/except`. -/
def cleanup_sweep (files : List String) (unlinkOk : String → Bool) : List String :=
  files.filter (fun file => !(endswith file ".pdf" && unlinkOk file))

example : split_pdf 12 5 (fun _ => false) =
    [[0, 1, 2, 3, 4], [5, 6, 7, 8, 9], [10, 11]] := by decide
example : split_pdf 12 5 (fun i => decide (5 ≤ i)) = [[0, 1, 2, 3, 4]] := by decide
example : (process_chunk true (Except.ok "A") (Except.ok ())).deleted = false := by decide
example : collectLoop [] [(some "A", false), (none, false), (some "B", true), (some "C", false)] =
    (["A", "B"], true) := by decide
example : cleanup_sweep ["a.pdf", "b.txt", "c.pdf"] (fun _ => true) = ["b.txt"] := by decide
example : cleanup_sweep ["a.pdf", "b.txt"] (fun file => !decide (file = "a.pdf")) =
    ["a.pdf", "b.txt"] := by decide

/-! ### Helper lemmas -/

theorem collectLoop_fst (completions : List (Option String × Bool)) :
    ∀ acc, (collectLoop acc completions).1 = acc ++ collected completions := by
  induction completions with
  | nil => intro acc; simp [collectLoop, collected]
  | cons e rest ih =>
    intro acc
    obtain ⟨chunk_text, shut⟩ := e
    cases shut with
    | false =>
      cases chunk_text with
      | none => simpa [collectLoop, collected] using ih acc
      | some text => simp [collectLoop, collected, ih (acc ++ [text])]
    | true => cases chunk_text <;> simp [collectLoop, collected]

theorem collectLoop_snd (completions : List (Option String × Bool)) :
    ∀ acc, (collectLoop acc completions).2 = completions.any (fun e => e.2) := by
  induction completions with
  | nil => intro acc; simp [collectLoop]
  | cons e rest ih =>
    intro acc
    obtain ⟨chunk_text, shut⟩ := e
    cases shut with
    | false => cases chunk_text <;> simp [collectLoop, ih]
    | true => cases chunk_text <;> simp [collectLoop]

theorem collected_eq_filterMap (completions : List (Option String × Bool))
    (h : ∀ e ∈ completions, e.2 = false) :
    collected completions = completions.filterMap Prod.fst := by
  induction completions with
  | nil => simp [collected]
  | cons e rest ih =>
    obtain ⟨chunk_text, shut⟩ := e
    have he : shut = false := h _ (List.mem_cons_self _ _)
    subst he
    have ih2 := ih (fun e he2 => h e (List.mem_cons_of_mem _ he2))
    cases chunk_text <;> simp [collected, List.filterMap_cons, ih2]

theorem join_append (l1 l2 : List String) :
    String.join (l1 ++ l2) = String.join l1 ++ String.join l2 := by
  apply String.ext
  simp [String.data_join, String.data_append]

theorem ceil_succ (n C : Nat) (hC : 1 ≤ C) (hn : 1 ≤ n) :
    (n + C - 1) / C = (n - 1) / C + 1 := by
  have e : n + C - 1 = (n - 1) + C := by omega
  rw [e, Nat.add_div_right _ (by omega)]

theorem ceil_sub_step (n C : Nat) (hC : 1 ≤ C) :
    (n - C + C - 1) / C = (n - 1) / C := by
  rcases le_or_lt n C with hle | hlt
  · have e1 : n - C = 0 := by omega
    have h0 : (0 + C - 1) / C = 0 := Nat.div_eq_of_lt (by omega)
    have h1 : (n - 1) / C = 0 := Nat.div_eq_of_lt (by omega)
    rw [e1, h0, h1]
  · have e4 : n - C + C - 1 = (n - 1 - C) + C := by omega
    have e5 : n - 1 = (n - 1 - C) + C := by omega
    rw [e4, Nat.add_div_right _ (by omega)]
    conv_rhs => rw [e5]
    rw [Nat.add_div_right _ (by omega)]

theorem ceil_div_aux (C q r : Nat) (hC : 1 ≤ C) (hr : r < C) :
    (C * q + r + C - 1) / C = if r = 0 then q else q + 1 := by
  by_cases h0 : r = 0
  · subst h0
    rw [if_pos rfl]
    have e : C * q + 0 + C - 1 = C * q + (C - 1) := by
      generalize C * q = m; omega
    rw [e, Nat.mul_add_div (by omega)]
    have h1 : (C - 1) / C = 0 := Nat.div_eq_of_lt (by omega)
    omega
  · rw [if_neg h0]
    have e : C * q + r + C - 1 = C * (q + 1) + (r - 1) := by
      have e2 : C * (q + 1) = C * q + C := by ring
      rw [e2]; generalize C * q = m; omega
    rw [e, Nat.mul_add_div (by omega)]
    have h1 : (r - 1) / C = 0 := Nat.div_eq_of_lt (by omega)
    omega

theorem ceil_div_eq (P C : Nat) (hC : 1 ≤ C) :
    (P + C - 1) / C = if P % C = 0 then P / C else P / C + 1 := by
  have hd : C * (P / C) + P % C = P := Nat.div_add_mod P C
  have hm : P % C < C := Nat.mod_lt _ (by omega)
  have h := ceil_div_aux C (P / C) (P % C) hC hm
  rw [hd] at h
  exact h

theorem splitFrom_false_eq (total_pages chunk_size : Nat) (hC : 1 ≤ chunk_size) :
    ∀ fuel i, total_pages - i ≤ fuel →
      splitFrom total_pages chunk_size (fun _ => false) fuel i =
        (List.range ((total_pages - i + chunk_size - 1) / chunk_size)).map
          (fun k => chunkPages total_pages (i + chunk_size * k) chunk_size) := by
  intro fuel
  induction fuel with
  | zero =>
    intro i h
    have h0 : total_pages - i = 0 := by omega
    rw [h0]
    have h1 : (0 + chunk_size - 1) / chunk_size = 0 := Nat.div_eq_of_lt (by omega)
    rw [h1]
    simp [splitFrom]
  | succ fuel ih =>
    intro i h
    by_cases hi : i < total_pages
    · have hn : 1 ≤ total_pages - i := by omega
      have e1 := ceil_succ (total_pages - i) chunk_size hC hn
      have tail : splitFrom total_pages chunk_size (fun _ => false) fuel (i + chunk_size) =
          (List.range ((total_pages - i - 1) / chunk_size)).map
            (fun k => chunkPages total_pages (i + chunk_size * (k + 1)) chunk_size) := by
        have ih2 := ih (i + chunk_size) (by omega)
        have e2 : total_pages - (i + chunk_size) = total_pages - i - chunk_size := by omega
        rw [ih2, e2, ceil_sub_step (total_pages - i) chunk_size hC]
        apply List.map_congr_left
        intro k _
        congr 1
        ring
      have main : splitFrom total_pages chunk_size (fun _ => false) (fuel + 1) i =
          chunkPages total_pages i chunk_size ::
            splitFrom total_pages chunk_size (fun _ => false) fuel (i + chunk_size) := by
        simp [splitFrom, hi]
      rw [main, tail, e1, List.range_succ_eq_map, List.map_cons, List.map_map]
      congr 1
    · have h0 : total_pages - i = 0 := by omega
      rw [h0]
      have h1 : (0 + chunk_size - 1) / chunk_size = 0 := Nat.div_eq_of_lt (by omega)
      rw [h1]
      simp [splitFrom, hi]

theorem split_pdf_false_eq (total_pages chunk_size : Nat) (hC : 1 ≤ chunk_size) :
    split_pdf total_pages chunk_size (fun _ => false) =
      (List.range ((total_pages + chunk_size - 1) / chunk_size)).map
        (fun k => chunkPages total_pages (chunk_size * k) chunk_size) := by
  have h := splitFrom_false_eq total_pages chunk_size hC total_pages 0 (by omega)
  simpa [split_pdf] using h

theorem splitFrom_length_le (total_pages chunk_size : Nat) (shutdownAt : Nat → Bool) :
    ∀ fuel k i, shutdownAt (i + chunk_size * k) = true →
      (splitFrom total_pages chunk_size shutdownAt fuel i).length ≤ k := by
  intro fuel
  induction fuel with
  | zero => intro k i _; simp [splitFrom]
  | succ fuel ih =>
    intro k i h
    by_cases hi : i < total_pages
    · by_cases hs : shutdownAt i = true
      · simp [splitFrom, hi, hs]
      · cases k with
        | zero =>
          exfalso
          apply hs
          simpa using h
        | succ k =>
          have h2 : shutdownAt ((i + chunk_size) + chunk_size * k) = true := by
            have e : (i + chunk_size) + chunk_size * k = i + chunk_size * (k + 1) := by ring
            rw [e]; exact h
          have h3 := ih k (i + chunk_size) h2
          simp only [splitFrom, if_pos hi, if_neg hs, List.length_cons]
          omega
    · simp [splitFrom, hi]

theorem splitFrom_take (total_pages chunk_size : Nat) (shutdownAt : Nat → Bool) :
    ∀ fuel i, splitFrom total_pages chunk_size shutdownAt fuel i =
      (splitFrom total_pages chunk_size (fun _ => false) fuel i).take
        (splitFrom total_pages chunk_size shutdownAt fuel i).length := by
  intro fuel
  induction fuel with
  | zero => intro i; simp [splitFrom]
  | succ fuel ih =>
    intro i
    by_cases hi : i < total_pages
    · by_cases hs : shutdownAt i = true
      · simp [splitFrom, hi, hs]
      · simp only [splitFrom, if_pos hi, if_neg hs, Bool.false_eq_true, if_false,
          List.length_cons, List.take_succ_cons]
        exact List.cons_eq_cons.mpr ⟨rfl, ih (i + chunk_size)⟩
    · simp [splitFrom, hi]

theorem mem_collected_of_getD :
    ∀ (completions : List (Option String × Bool)) (i : Nat) (text : String) (b : Bool),
      completions.getD i (none, false) = (some text, b) →
      (∀ j, j < i → (completions.getD j (none, false)).2 = false) →
      text ∈ collected completions := by
  intro completions
  induction completions with
  | nil =>
    intro i text b hi _
    simp [List.getD] at hi
  | cons e rest ih =>
    intro i text b hi hbefore
    obtain ⟨chunk_text, shut⟩ := e
    cases i with
    | zero =>
      rw [List.getD_cons_zero] at hi
      obtain ⟨h1, h2⟩ := Prod.mk.injEq .. ▸ hi
      subst h1
      cases shut <;> simp [collected]
    | succ i =>
      have hshut : shut = false := by
        have h0 := hbefore 0 (by omega)
        simpa using h0
      subst hshut
      rw [List.getD_cons_succ] at hi
      have hb2 : ∀ j, j < i → (rest.getD j (none, false)).2 = false := by
        intro j hj
        have := hbefore (j + 1) (by omega)
        simpa using this
      have hmem := ih i text b hi hb2
      cases chunk_text <;> simp [collected, hmem]

theorem collected_append_none (post : List (Option String × Bool)) :
    ∀ pre, (∀ e ∈ pre, e.2 = false) →
      collected (pre ++ (none, false) :: post) = collected (pre ++ post) := by
  intro pre
  induction pre with
  | nil => intro _; simp [collected]
  | cons e pre ih =>
    intro h
    obtain ⟨chunk_text, shut⟩ := e
    have hshut : shut = false := h _ (List.mem_cons_self _ _)
    subst hshut
    have ih2 := ih (fun e he => h e (List.mem_cons_of_mem _ he))
    cases chunk_text <;> simp [collected, ih2]

/-! ### Claim theorems -/

/-- C2: for every document with `total_pages` pages and every chunk size
`chunk_size ≥ 1`, the uncancelled `split_pdf` produces exactly
`⌈total_pages / chunk_size⌉` segments; every segment except possibly the
last has `chunk_size` pages, the last has `total_pages % chunk_size` pages
(or `chunk_size` when the remainder is zero), and segment `k` contains
exactly the consecutive pages of its window, in original document order. -/
theorem c2_split_pdf_segmentation (total_pages chunk_size : Nat) (hC : 1 ≤ chunk_size) :
    (split_pdf total_pages chunk_size (fun _ => false)).length =
        (total_pages + chunk_size - 1) / chunk_size ∧
      (∀ k, k < (split_pdf total_pages chunk_size (fun _ => false)).length →
        (split_pdf total_pages chunk_size (fun _ => false)).getD k [] =
          List.range' (chunk_size * k)
            (min chunk_size (total_pages - chunk_size * k))) ∧
      (∀ k, k + 1 < (split_pdf total_pages chunk_size (fun _ => false)).length →
        ((split_pdf total_pages chunk_size (fun _ => false)).getD k []).length =
          chunk_size) ∧
      (0 < total_pages →
        ((split_pdf total_pages chunk_size (fun _ => false)).getD
            ((split_pdf total_pages chunk_size (fun _ => false)).length - 1) []).length =
          if total_pages % chunk_size = 0 then chunk_size
          else total_pages % chunk_size) := by
  have heq := split_pdf_false_eq total_pages chunk_size hC
  have hlen : (split_pdf total_pages chunk_size (fun _ => false)).length =
      (total_pages + chunk_size - 1) / chunk_size := by
    rw [heq]; simp
  have hget : ∀ k, k < (total_pages + chunk_size - 1) / chunk_size →
      (split_pdf total_pages chunk_size (fun _ => false)).getD k [] =
        List.range' (chunk_size * k)
          (min chunk_size (total_pages - chunk_size * k)) := by
    intro k hk
    rw [heq]
    have hk2 : k < ((List.range ((total_pages + chunk_size - 1) / chunk_size)).map
        (fun k => chunkPages total_pages (chunk_size * k) chunk_size)).length := by
      simpa using hk
    rw [List.getD_eq_getElem _ _ hk2]
    simp only [List.getElem_map, List.getElem_range, chunkPages]
    congr 1
    generalize chunk_size * k = a
    omega
  refine ⟨hlen, ?_, ?_, ?_⟩
  · intro k hk
    rw [hlen] at hk
    exact hget k hk
  · intro k hk
    rw [hlen] at hk
    rw [hget k (by omega), List.length_range']
    have h1 : k + 2 ≤ (total_pages + chunk_size - 1) / chunk_size := by omega
    have h2 : (k + 2) * chunk_size ≤ total_pages + chunk_size - 1 :=
      (Nat.le_div_iff_mul_le (by omega)).mp h1
    have e : (k + 2) * chunk_size = chunk_size * k + chunk_size + chunk_size := by ring
    rw [e] at h2
    revert h2
    generalize chunk_size * k = a
    intro h2
    omega
  · intro hP
    rw [hlen]
    have hd : chunk_size * (total_pages / chunk_size) + total_pages % chunk_size =
        total_pages := Nat.div_add_mod _ _
    have hm : total_pages % chunk_size < chunk_size := Nat.mod_lt _ (by omega)
    have hceil := ceil_div_eq total_pages chunk_size hC
    by_cases h0 : total_pages % chunk_size = 0
    · rw [if_pos h0]
      rw [if_pos h0] at hceil
      have hq1 : 1 ≤ total_pages / chunk_size := by
        rcases Nat.eq_zero_or_pos (total_pages / chunk_size) with hz | hpos
        · exfalso; rw [hz] at hd; simp at hd; omega
        · exact hpos
      rw [hceil]
      rw [hget (total_pages / chunk_size - 1) (by rw [hceil]; omega), List.length_range']
      have e : chunk_size * (total_pages / chunk_size - 1) + chunk_size =
          chunk_size * (total_pages / chunk_size) := by
        rw [← Nat.mul_succ]
        congr 1
        omega
      revert e hd h0
      generalize chunk_size * (total_pages / chunk_size - 1) = a
      generalize chunk_size * (total_pages / chunk_size) = b
      generalize total_pages % chunk_size = r
      intro e hd h0
      omega
    · rw [if_neg h0]
      rw [if_neg h0] at hceil
      rw [hceil, Nat.add_sub_cancel]
      rw [hget (total_pages / chunk_size) (by rw [hceil]; omega), List.length_range']
      revert hd hm h0
      generalize chunk_size * (total_pages / chunk_size) = b
      generalize total_pages % chunk_size = r
      intro hd hm h0
      omega

/-- C2 witness: the spec's own scenario, a 12-page document with chunk size
5, evaluated concretely. -/
theorem c2_split_pdf_segmentation_witness :
    1 ≤ 5 ∧
      ((split_pdf 12 5 (fun _ => false)).length = (12 + 5 - 1) / 5 ∧
        (∀ k, k < (split_pdf 12 5 (fun _ => false)).length →
          (split_pdf 12 5 (fun _ => false)).getD k [] =
            List.range' (5 * k) (min 5 (12 - 5 * k))) ∧
        (∀ k, k + 1 < (split_pdf 12 5 (fun _ => false)).length →
          ((split_pdf 12 5 (fun _ => false)).getD k []).length = 5) ∧
        (0 < 12 →
          ((split_pdf 12 5 (fun _ => false)).getD
              ((split_pdf 12 5 (fun _ => false)).length - 1) []).length =
            if 12 % 5 = 0 then 5 else 12 % 5)) :=
  ⟨by decide, c2_split_pdf_segmentation 12 5 (by decide)⟩

/-- C1: in a single run of a fresh process (module-level `text_chunks`
initially empty) whose collection loop is never interrupted, the string
`process_large_pdf` returns is the concatenation of exactly the successful
outcomes' texts, each appended exactly once, in completion order; failed
or absent (`None`) outcomes contribute nothing.  The second conjunct
states the same at the level of the backing list. -/
theorem c1_aggregate_is_successful_texts (completions : List (Option String × Bool))
    (h : ∀ e ∈ completions, e.2 = false) :
    (process_large_pdf [] completions).1 =
        String.join (completions.filterMap Prod.fst) ∧
      (process_large_pdf [] completions).2.1 = completions.filterMap Prod.fst := by
  have h1 : (collectLoop [] completions).1 = completions.filterMap Prod.fst := by
    rw [collectLoop_fst completions [], collected_eq_filterMap completions h]
    simp
  constructor <;> simp [process_large_pdf, h1]

/-- C1 witness: the run collecting `A`, a failure, then `B` returns the
string `AB`. -/
theorem c1_aggregate_is_successful_texts_witness :
    (∀ e ∈ [(some "A", false), (none, false), (some "B", false)], e.2 = false) ∧
      ((process_large_pdf [] [(some "A", false), (none, false), (some "B", false)]).1 =
          String.join
            ([(some "A", false), (none, false), (some "B", false)].filterMap Prod.fst) ∧
        (process_large_pdf [] [(some "A", false), (none, false), (some "B", false)]).2.1 =
          [(some "A", false), (none, false), (some "B", false)].filterMap Prod.fst) :=
  ⟨by decide, c1_aggregate_is_successful_texts _ (by decide)⟩

/-- C3 counterexample: an invocation skipped at the cancellation checkpoint
does not delete the segment's scratch artifact — the `return None` of
src/app.py line 48 sits before the `try`, so the `finally` deletion
(line 60) never runs on that path, refuting the claim that deletion
happens regardless of the skip. -/
theorem c3_counterexample :
    (process_chunk true (Except.ok "text") (Except.ok ())).deleted = false := by decide

/-- C3 amended: for every invocation of the segment processor that enters
its extraction path (cancellation not observed at the entry checkpoint),
the segment's scratch artifact deletion is attempted by the time the
invocation returns, whether extraction succeeded or failed; a failure of
that deletion is only logged — it never reaches the caller and leaves the
returned result unchanged.  An invocation skipped due to cancellation
returns an absent result immediately without deleting the artifact (such
leftovers are collected by the terminal cleanup sweep). -/
theorem c3_disposal_on_extraction_path (extract_text : Except String String)
    (unlink : Except String Unit) :
    (process_chunk false extract_text (Except.ok ())).deleted = true ∧
      (∀ msg, (process_chunk false extract_text (Except.error msg)).deleted = false) ∧
      (∀ msg, (process_chunk false extract_text (Except.error msg)).result =
        (process_chunk false extract_text (Except.ok ())).result) ∧
      (process_chunk true extract_text unlink).deleted = false := by
  refine ⟨rfl, fun msg => rfl, fun msg => rfl, rfl⟩

/-- C4: once the monotonic cancellation flag is set it stays set, so if it
is observed set at the checkpoint of window `k` (page start
`chunk_size * k`), the segmenter materializes at most the `k` earlier
windows — and what it did materialize is exactly an initial run of the
uncancelled segment sequence — while every processor invocation that
starts after the flag is set returns an absent result immediately without
invoking the extraction routine. -/
theorem c4_cancellation_checkpoints (total_pages chunk_size k : Nat)
    (shutdownAt : Nat → Bool) (hset : shutdownAt (chunk_size * k) = true) :
    (split_pdf total_pages chunk_size shutdownAt).length ≤ k ∧
      split_pdf total_pages chunk_size shutdownAt =
        (split_pdf total_pages chunk_size (fun _ => false)).take
          (split_pdf total_pages chunk_size shutdownAt).length ∧
      (∀ extract_text unlink,
        (process_chunk true extract_text unlink).extractionInvoked = false ∧
          (process_chunk true extract_text unlink).result = none) := by
  refine ⟨?_, ?_, fun extract_text unlink => ⟨rfl, rfl⟩⟩
  · have h := splitFrom_length_le total_pages chunk_size shutdownAt total_pages k 0
      (by simpa using hset)
    simpa [split_pdf] using h
  · exact splitFrom_take total_pages chunk_size shutdownAt total_pages 0

/-- C4 witness: a 10-page document, chunk size 2, flag set from page 2 on:
only the first window is materialized. -/
theorem c4_cancellation_checkpoints_witness :
    (fun i => decide (2 ≤ i)) (2 * 1) = true ∧
      ((split_pdf 10 2 (fun i => decide (2 ≤ i))).length ≤ 1 ∧
        split_pdf 10 2 (fun i => decide (2 ≤ i)) =
          (split_pdf 10 2 (fun _ => false)).take
            (split_pdf 10 2 (fun i => decide (2 ≤ i))).length ∧
        (∀ extract_text unlink,
          (process_chunk true extract_text unlink).extractionInvoked = false ∧
            (process_chunk true extract_text unlink).result = none)) :=
  ⟨by decide, c4_cancellation_checkpoints 10 2 1 _ (by decide)⟩

/-- C5: the collection loop appends a present result before checking the
cancellation flag: if the `i`-th observed completion carries `some text`
and no earlier completion observed the flag set (so the loop reaches it),
then `text` ends up in the aggregate's backing list — even when the flag
is observed set immediately after that very completion. -/
theorem c5_append_precedes_check (text_chunks : List String)
    (completions : List (Option String × Bool)) (i : Nat) (text : String) (b : Bool)
    (hi : completions.getD i (none, false) = (some text, b))
    (hbefore : ∀ j, j < i → (completions.getD j (none, false)).2 = false) :
    text ∈ (process_large_pdf text_chunks completions).2.1 := by
  have hmem := mem_collected_of_getD completions i text b hi hbefore
  simp [process_large_pdf, collectLoop_fst, hmem]

/-- C5 witness: the task completing second carries `B` and the flag is
observed set right after it; `B` is still recorded. -/
theorem c5_append_precedes_check_witness :
    [(some "A", false), (some "B", true), (some "C", false)].getD 1 (none, false) =
        (some "B", true) ∧
      (∀ j, j < 1 →
        ([(some "A", false), (some "B", true), (some "C", false)].getD j
            (none, false)).2 = false) ∧
      "B" ∈ (process_large_pdf []
        [(some "A", false), (some "B", true), (some "C", false)]).2.1 :=
  ⟨by decide, by decide,
    c5_append_precedes_check [] _ 1 "B" true (by decide) (by decide)⟩

/-- C6: with no fatal error, the destination file is written — once, with
exactly the string `process_large_pdf` returned — iff the flag is not set
at the end-of-run check (src/app.py line 105); an interrupted run writes
no file while the partial aggregate is still the orchestrator's return
value; a fatal error also writes no file. -/
theorem c6_output_written_iff_uninterrupted (text_chunks : List String)
    (completions : List (Option String × Bool)) (shutdown_at_end : Bool) :
    ((main_output text_chunks completions false shutdown_at_end).1 =
        some ((process_large_pdf text_chunks completions).1) ↔
          shutdown_at_end = false) ∧
      (main_output text_chunks completions false true).1 = none ∧
      (main_output text_chunks completions false true).2 =
        (process_large_pdf text_chunks completions).1 ∧
      (main_output text_chunks completions true shutdown_at_end).1 = none := by
  cases shutdown_at_end <;> simp [main_output]

/-- C7: a failing extraction is confined to its segment: the processor
returns `None` instead of propagating the exception, the corresponding
completion contributes nothing to the aggregate (the run's outputs are
exactly those of the same run without it), and the run still terminates in
the `aggregated` state rather than raising. -/
theorem c7_extraction_failure_recovered (msg : String) (unlink : Except String Unit)
    (text_chunks : List String) (pre post : List (Option String × Bool))
    (hpre : ∀ e ∈ pre, e.2 = false) (hpost : ∀ e ∈ post, e.2 = false) :
    (process_chunk false (Except.error msg) unlink).result = none ∧
      process_large_pdf text_chunks
          (pre ++ ((process_chunk false (Except.error msg) unlink).result, false) :: post) =
        process_large_pdf text_chunks (pre ++ post) ∧
      (process_large_pdf text_chunks
          (pre ++ ((process_chunk false (Except.error msg) unlink).result, false) ::
            post)).2.2 = RunState.aggregated := by
  have hres : (process_chunk false (Except.error msg) unlink).result = none := rfl
  have hcoll : collected (pre ++ (none, false) :: post) = collected (pre ++ post) :=
    collected_append_none post pre hpre
  have h1 : (collectLoop text_chunks (pre ++ (none, false) :: post)).1 =
      (collectLoop text_chunks (pre ++ post)).1 := by
    rw [collectLoop_fst, collectLoop_fst, hcoll]
  have h2 : (collectLoop text_chunks (pre ++ (none, false) :: post)).2 =
      (collectLoop text_chunks (pre ++ post)).2 := by
    rw [collectLoop_snd, collectLoop_snd]
    simp [List.any_append]
  have hpreany : pre.any (fun e => e.2) = false := by
    rw [List.any_eq_false]
    intro e he
    simp [hpre e he]
  have hpostany : post.any (fun e => e.2) = false := by
    rw [List.any_eq_false]
    intro e he
    simp [hpost e he]
  refine ⟨hres, ?_, ?_⟩
  · rw [hres]
    simp only [process_large_pdf]
    rw [h1, h2]
  · rw [hres]
    simp [process_large_pdf, collectLoop_snd, List.any_append, hpreany, hpostany]

/-- C7 witness: a run with outcomes `A`, a raised extraction failure, `B`
behaves exactly like the run with only `A` and `B`, and still aggregates. -/
theorem c7_extraction_failure_recovered_witness :
    (∀ e ∈ [((some "A" : Option String), false)], e.2 = false) ∧
      (∀ e ∈ [((some "B" : Option String), false)], e.2 = false) ∧
      ((process_chunk false (Except.error "boom") (Except.ok ())).result = none ∧
        process_large_pdf []
            ([(some "A", false)] ++
              ((process_chunk false (Except.error "boom") (Except.ok ())).result, false) ::
                [(some "B", false)]) =
          process_large_pdf [] ([(some "A", false)] ++ [(some "B", false)]) ∧
        (process_large_pdf []
            ([(some "A", false)] ++
              ((process_chunk false (Except.error "boom") (Except.ok ())).result, false) ::
                [(some "B", false)])).2.2 = RunState.aggregated) :=
  ⟨by decide, by decide,
    c7_extraction_failure_recovered "boom" (Except.ok ()) [] _ _ (by decide) (by decide)⟩

/-- C8: cleanup-sweep idempotence: when every deletion succeeds, the first
sweep leaves no file matching `.pdf` behind, so a second sweep over the
same directory finds nothing to delete and leaves the contents unchanged
(and, being a total function whose per-file deletions are each wrapped in
their own handler, it raises nothing). -/
theorem c8_cleanup_sweep_idempotent (files : List String) (unlinkOk : String → Bool)
    (hok : ∀ file, unlinkOk file = true) :
    (∀ file ∈ cleanup_sweep files unlinkOk, endswith file ".pdf" = false) ∧
      cleanup_sweep (cleanup_sweep files unlinkOk) unlinkOk =
        cleanup_sweep files unlinkOk := by
  constructor
  · intro file hf
    have h := List.of_mem_filter hf
    simpa [hok file] using h
  · simp only [cleanup_sweep]
    rw [List.filter_filter]
    apply List.filter_congr
    intro x _
    simp

/-- C8 witness: sweeping `["a.pdf", "b.txt"]` with all deletions
succeeding, twice. -/
theorem c8_cleanup_sweep_idempotent_witness :
    (∀ file : String, (fun _ : String => true) file = true) ∧
      ((∀ file ∈ cleanup_sweep ["a.pdf", "b.txt"] (fun _ => true),
          endswith file ".pdf" = false) ∧
        cleanup_sweep (cleanup_sweep ["a.pdf", "b.txt"] (fun _ => true)) (fun _ => true) =
          cleanup_sweep ["a.pdf", "b.txt"] (fun _ => true)) :=
  ⟨fun _ => rfl, c8_cleanup_sweep_idempotent _ _ (fun _ => rfl)⟩

/-- C9: the aggregate's backing list `text_chunks` is module-level state
that `process_large_pdf` never resets, so the string a second call in the
same process returns is the first call's entire string followed by the
texts the second call itself collects; the backing list likewise carries
the first run's entries over. -/
theorem c9_module_state_accumulates
    (completions1 completions2 : List (Option String × Bool)) :
    (process_large_pdf (process_large_pdf [] completions1).2.1 completions2).1 =
        (process_large_pdf [] completions1).1 ++
          String.join (collected completions2) ∧
      (process_large_pdf (process_large_pdf [] completions1).2.1 completions2).2.1 =
        (process_large_pdf [] completions1).2.1 ++ collected completions2 := by
  constructor
  · simp only [process_large_pdf]
    rw [collectLoop_fst completions2, join_append]
  · simp only [process_large_pdf]
    rw [collectLoop_fst completions2]

/-- C10: the frame of the terminal cleanup sweep: a file of the system
temporary directory survives the sweep iff its name does not end in
`.pdf` or its deletion failed.  In particular every deletable `.pdf` file
is removed — the sweep never inspects who created the file, so artifacts
of other runs or other programs are deleted too — and files not matching
the pattern are never touched. -/
theorem c10_sweep_deletes_every_pdf (files : List String) (unlinkOk : String → Bool)
    (file : String) :
    file ∈ cleanup_sweep files unlinkOk ↔
      file ∈ files ∧ (endswith file ".pdf" = false ∨ unlinkOk file = false) := by
  rw [cleanup_sweep, List.mem_filter]
  apply and_congr_right
  intro _
  cases h1 : endswith file ".pdf" <;> cases h2 : unlinkOk file <;> simp [h1, h2]

end ConvertLargePdf
